import Mathlib

/-!
Verification of the secure storage core of the repository
(`src/apps/desktop/src-tauri/src/security.rs` and
`src/apps/desktop/src-tauri/src/secure_storage.rs`), as a shallow
embedding.  Machine bytes are modelled as `Nat` values below 256; the
filesystem is an explicit map from paths to file contents; the AES block
cipher used by AES-256-GCM is an arbitrary function parameter (the
properties proved do not depend on its internals), while the GCM mode of
operation, SHA-256, base64 and UTF-8 are modelled concretely.
-/

namespace YtPub

/-- Big-endian serialization of `x` into exactly `n` bytes. -/
def toBytesBE : Nat → Nat → List Nat
  | 0, _ => []
  | n + 1, x => toBytesBE n (x / 256) ++ [x % 256]

/-- Big-endian byte deserialization into a natural number. -/
def fromBytesBE (l : List Nat) : Nat :=
  l.foldl (fun a b => a * 256 + b % 256) 0

theorem length_toBytesBE (n x : Nat) : (toBytesBE n x).length = n := by
  induction n generalizing x with
  | zero => rfl
  | succ n ih => simp [toBytesBE, ih]

theorem toBytesBE_lt (n x : Nat) : ∀ b ∈ toBytesBE n x, b < 256 := by
  induction n generalizing x with
  | zero => simp [toBytesBE]
  | succ n ih =>
    intro b hb
    simp only [toBytesBE, List.mem_append, List.mem_singleton] at hb
    rcases hb with h | h
    · exact ih _ _ h
    · subst h; exact Nat.mod_lt _ (by norm_num)

/-! ### UTF-8 (Rust `str::as_bytes` / `String::from_utf8`) -/

/-- UTF-8 encoding of one Unicode scalar value. -/
def utf8EncodeCP (n : Nat) : List Nat :=
  if n < 0x80 then [n]
  else if n < 0x800 then [0xC0 + n / 64, 0x80 + n % 64]
  else if n < 0x10000 then [0xE0 + n / 4096, 0x80 + n / 64 % 64, 0x80 + n % 64]
  else [0xF0 + n / 0x40000, 0x80 + n / 4096 % 64, 0x80 + n / 64 % 64, 0x80 + n % 64]

/-- UTF-8 encoding of a sequence of Unicode scalar values. -/
def utf8EncodeCPs : List Nat → List Nat
  | [] => []
  | c :: cs => utf8EncodeCP c ++ utf8EncodeCPs cs

/-- The UTF-8 bytes of a string (Rust `str::as_bytes`). -/
def utf8Bytes (s : String) : List Nat :=
  utf8EncodeCPs (s.data.map Char.toNat)

/-- Rust `str::len`: the UTF-8 byte length of a string. -/
def utf8Len (s : String) : Nat := (utf8Bytes s).length

/-- UTF-8 decoding state machine, processing one byte at a time.
Arguments: remaining bytes, number of pending continuation bytes, partial
scalar value, minimum allowed final value (the overlong-encoding bound).
Rejects invalid lead bytes, invalid continuation bytes, overlong forms,
surrogates, values above `0x10FFFF` and truncated sequences — exactly the
inputs Rust `String::from_utf8` rejects. -/
def utf8DecodeAux : List Nat → Nat → Nat → Nat → Option (List Nat)
  | [], 0, _, _ => some []
  | [], _ + 1, _, _ => none
  | b :: rest, 0, _, _ =>
    if b < 0x80 then (utf8DecodeAux rest 0 0 0).map (b :: ·)
    else if b < 0xC2 then none
    else if b < 0xE0 then utf8DecodeAux rest 1 (b - 0xC0) 0x80
    else if b < 0xF0 then utf8DecodeAux rest 2 (b - 0xE0) 0x800
    else if b < 0xF5 then utf8DecodeAux rest 3 (b - 0xF0) 0x10000
    else none
  | b :: rest, 1, v, m =>
    if 0x80 ≤ b ∧ b < 0xC0 then
      if m ≤ v * 64 + (b - 0x80) ∧ v * 64 + (b - 0x80) < 0x110000 ∧
          ¬(0xD800 ≤ v * 64 + (b - 0x80) ∧ v * 64 + (b - 0x80) < 0xE000) then
        (utf8DecodeAux rest 0 0 0).map ((v * 64 + (b - 0x80)) :: ·)
      else none
    else none
  | b :: rest, k + 2, v, m =>
    if 0x80 ≤ b ∧ b < 0xC0 then utf8DecodeAux rest (k + 1) (v * 64 + (b - 0x80)) m
    else none

/-- UTF-8 decoding to Unicode scalar values (Rust `String::from_utf8`). -/
def utf8DecodeCPs (l : List Nat) : Option (List Nat) := utf8DecodeAux l 0 0 0

/-- A Unicode scalar value: in range and not a surrogate. -/
def ValidCP (n : Nat) : Prop := n < 0x110000 ∧ ¬(0xD800 ≤ n ∧ n < 0xE000)

theorem utf8DecodeCPs_encodeCP_append (n : Nat) (rest : List Nat) (hv : ValidCP n) :
    utf8DecodeCPs (utf8EncodeCP n ++ rest) = (utf8DecodeCPs rest).map (n :: ·) := by
  obtain ⟨h1, h2⟩ := hv
  unfold utf8DecodeCPs
  by_cases hA : n < 0x80
  · simp only [utf8EncodeCP, if_pos hA, List.cons_append, List.nil_append,
      utf8DecodeAux, if_pos hA]
  · by_cases hB : n < 0x800
    · have e1 : ¬(0xC0 + n / 64 < 0x80) := by omega
      have e2 : ¬(0xC0 + n / 64 < 0xC2) := by omega
      have e3 : 0xC0 + n / 64 < 0xE0 := by omega
      have hcond : 0x80 ≤ 0x80 + n % 64 ∧ 0x80 + n % 64 < 0xC0 := by omega
      have hval : (0xC0 + n / 64 - 0xC0) * 64 + (0x80 + n % 64 - 0x80) = n := by omega
      have hrange : 0x80 ≤ n ∧ n < 0x110000 ∧ ¬(0xD800 ≤ n ∧ n < 0xE000) :=
        ⟨by omega, by omega, h2⟩
      simp only [utf8EncodeCP, if_neg hA, if_pos hB, List.cons_append, List.nil_append,
        utf8DecodeAux, if_neg e1, if_neg e2, if_pos e3, if_pos hcond, hval, if_pos hrange]
    · by_cases hC : n < 0x10000
      · have e1 : ¬(0xE0 + n / 4096 < 0x80) := by omega
        have e2 : ¬(0xE0 + n / 4096 < 0xC2) := by omega
        have e3 : ¬(0xE0 + n / 4096 < 0xE0) := by omega
        have e4 : 0xE0 + n / 4096 < 0xF0 := by omega
        have hcond1 : 0x80 ≤ 0x80 + n / 64 % 64 ∧ 0x80 + n / 64 % 64 < 0xC0 := by omega
        have hcond2 : 0x80 ≤ 0x80 + n % 64 ∧ 0x80 + n % 64 < 0xC0 := by omega
        have hval : ((0xE0 + n / 4096 - 0xE0) * 64 + (0x80 + n / 64 % 64 - 0x80)) * 64 +
            (0x80 + n % 64 - 0x80) = n := by omega
        have hrange : 0x800 ≤ n ∧ n < 0x110000 ∧ ¬(0xD800 ≤ n ∧ n < 0xE000) :=
          ⟨by omega, by omega, h2⟩
        simp only [utf8EncodeCP, if_neg hA, if_neg hB, if_pos hC, List.cons_append,
          List.nil_append, utf8DecodeAux, if_neg e1, if_neg e2, if_neg e3, if_pos e4,
          if_pos hcond1, if_pos hcond2, hval, if_pos hrange]
      · have e1 : ¬(0xF0 + n / 0x40000 < 0x80) := by omega
        have e2 : ¬(0xF0 + n / 0x40000 < 0xC2) := by omega
        have e3 : ¬(0xF0 + n / 0x40000 < 0xE0) := by omega
        have e4 : ¬(0xF0 + n / 0x40000 < 0xF0) := by omega
        have e5 : 0xF0 + n / 0x40000 < 0xF5 := by omega
        have hcond1 : 0x80 ≤ 0x80 + n / 4096 % 64 ∧ 0x80 + n / 4096 % 64 < 0xC0 := by omega
        have hcond2 : 0x80 ≤ 0x80 + n / 64 % 64 ∧ 0x80 + n / 64 % 64 < 0xC0 := by omega
        have hcond3 : 0x80 ≤ 0x80 + n % 64 ∧ 0x80 + n % 64 < 0xC0 := by omega
        have hval : (((0xF0 + n / 0x40000 - 0xF0) * 64 + (0x80 + n / 4096 % 64 - 0x80)) * 64 +
            (0x80 + n / 64 % 64 - 0x80)) * 64 + (0x80 + n % 64 - 0x80) = n := by omega
        have hrange : 0x10000 ≤ n ∧ n < 0x110000 ∧ ¬(0xD800 ≤ n ∧ n < 0xE000) :=
          ⟨by omega, by omega, by omega⟩
        simp only [utf8EncodeCP, if_neg hA, if_neg hB, if_neg hC, List.cons_append,
          List.nil_append, utf8DecodeAux, if_neg e1, if_neg e2, if_neg e3, if_neg e4,
          if_pos e5, if_pos hcond1, if_pos hcond2, if_pos hcond3, hval, if_pos hrange]

theorem utf8DecodeCPs_encodeCPs (cs : List Nat) (h : ∀ n ∈ cs, ValidCP n) :
    utf8DecodeCPs (utf8EncodeCPs cs) = some cs := by
  induction cs with
  | nil => rfl
  | cons c cs ih =>
    rw [utf8EncodeCPs, utf8DecodeCPs_encodeCP_append c _ (h c (by simp)),
      ih (fun n hn => h n (by simp [hn]))]
    rfl

theorem utf8EncodeCP_lt (n : Nat) (h : n < 0x110000) : ∀ b ∈ utf8EncodeCP n, b < 256 := by
  intro b hb
  unfold utf8EncodeCP at hb
  split at hb
  · simp at hb; omega
  · split at hb
    · simp at hb; omega
    · split at hb
      · simp at hb; omega
      · simp at hb; omega

theorem utf8EncodeCPs_lt (cs : List Nat) (h : ∀ n ∈ cs, n < 0x110000) :
    ∀ b ∈ utf8EncodeCPs cs, b < 256 := by
  induction cs with
  | nil => simp [utf8EncodeCPs]
  | cons c cs ih =>
    intro b hb
    simp only [utf8EncodeCPs, List.mem_append] at hb
    rcases hb with hb | hb
    · exact utf8EncodeCP_lt c (h c (by simp)) b hb
    · exact ih (fun n hn => h n (by simp [hn])) b hb

theorem char_validCP (c : Char) : ValidCP c.toNat := by
  have hv := c.valid
  have ht : c.toNat = c.val.toNat := rfl
  rcases hv with h | h
  · exact ⟨by omega, by omega⟩
  · exact ⟨by omega, by omega⟩

theorem utf8Bytes_lt (s : String) : ∀ b ∈ utf8Bytes s, b < 256 := by
  apply utf8EncodeCPs_lt
  intro n hn
  simp only [List.mem_map] at hn
  obtain ⟨c, _, rfl⟩ := hn
  exact (char_validCP c).1

theorem utf8Len_replicate (n : Nat) (cp : Nat) (h : cp < 0x80) :
    (utf8EncodeCPs (List.replicate n cp)).length = n := by
  induction n with
  | zero => rfl
  | succ n ih => simp [List.replicate, utf8EncodeCPs, utf8EncodeCP, h, ih]



/-! ### base64 (the `base64` crate, `general_purpose::STANDARD`) -/

/-- The base64 standard alphabet: sextet value to ASCII code. -/
def b64Char (n : Nat) : Nat :=
  if n < 26 then 65 + n
  else if n < 52 then 71 + n
  else if n < 62 then n - 4
  else if n = 62 then 43
  else 47

/-- Inverse of the base64 standard alphabet: ASCII code to sextet value. -/
def b64Val (c : Nat) : Option Nat :=
  if 65 ≤ c ∧ c ≤ 90 then some (c - 65)
  else if 97 ≤ c ∧ c ≤ 122 then some (c - 71)
  else if 48 ≤ c ∧ c ≤ 57 then some (c + 4)
  else if c = 43 then some 62
  else if c = 47 then some 63
  else none

/-- base64 standard encoding with `=` padding, bytes to ASCII codes. -/
def b64Encode : List Nat → List Nat
  | b0 :: b1 :: b2 :: rest =>
    b64Char (b0 / 4) :: b64Char ((b0 % 4) * 16 + b1 / 16) ::
      b64Char ((b1 % 16) * 4 + b2 / 64) :: b64Char (b2 % 64) :: b64Encode rest
  | [b0, b1] =>
    [b64Char (b0 / 4), b64Char ((b0 % 4) * 16 + b1 / 16), b64Char ((b1 % 16) * 4), 61]
  | [b0] => [b64Char (b0 / 4), b64Char ((b0 % 4) * 16), 61, 61]
  | [] => []

/-- base64 standard decoding: requires canonical padding and zero trailing
bits, as the strict `STANDARD` engine does. -/
def b64Decode : List Nat → Option (List Nat)
  | [] => some []
  | c0 :: c1 :: c2 :: c3 :: rest =>
    match b64Val c0, b64Val c1 with
    | some s0, some s1 =>
      if c2 = 61 then
        if c3 = 61 ∧ rest = [] ∧ s1 % 16 = 0 then some [s0 * 4 + s1 / 16] else none
      else
        match b64Val c2 with
        | some s2 =>
          if c3 = 61 then
            if rest = [] ∧ s2 % 4 = 0 then some [s0 * 4 + s1 / 16, (s1 % 16) * 16 + s2 / 4]
            else none
          else
            match b64Val c3 with
            | some s3 =>
              (b64Decode rest).map
                (fun bs => (s0 * 4 + s1 / 16) :: ((s1 % 16) * 16 + s2 / 4) ::
                  ((s2 % 4) * 64 + s3) :: bs)
            | none => none
        | none => none
    | _, _ => none
  | _ => none

theorem b64Val_b64Char : ∀ s, s < 64 → b64Val (b64Char s) = some s := by decide

theorem b64Char_ne_61 : ∀ s, s < 64 → b64Char s ≠ 61 := by decide

theorem b64Char_lt (s : Nat) (h : s < 64) : b64Char s < 256 := by
  unfold b64Char
  split
  · omega
  · split
    · omega
    · split
      · omega
      · split <;> omega

theorem b64Decode_b64Encode (bs : List Nat) (h : ∀ b ∈ bs, b < 256) :
    b64Decode (b64Encode bs) = some bs := by
  induction bs using b64Encode.induct with
  | case1 b0 b1 b2 rest ih =>
    have hb0 : b0 < 256 := h b0 (by simp)
    have hb1 : b1 < 256 := h b1 (by simp)
    have hb2 : b2 < 256 := h b2 (by simp)
    have s0 : b0 / 4 < 64 := by omega
    have s1 : (b0 % 4) * 16 + b1 / 16 < 64 := by omega
    have s2 : (b1 % 16) * 4 + b2 / 64 < 64 := by omega
    have s3 : b2 % 64 < 64 := by omega
    have e0 : b0 / 4 * 4 + (b0 % 4 * 16 + b1 / 16) / 16 = b0 := by omega
    have e1 : (b0 % 4 * 16 + b1 / 16) % 16 * 16 + (b1 % 16 * 4 + b2 / 64) / 4 = b1 := by omega
    have e2 : (b1 % 16 * 4 + b2 / 64) % 4 * 64 + b2 % 64 = b2 := by omega
    rw [b64Encode, b64Decode, b64Val_b64Char _ s0, b64Val_b64Char _ s1]
    simp [b64Char_ne_61 _ s2, b64Char_ne_61 _ s3, b64Val_b64Char _ s2, b64Val_b64Char _ s3,
      ih (fun b hb => h b (by simp [hb])), e0, e1, e2]
  | case2 b0 b1 =>
    have hb0 : b0 < 256 := h b0 (by simp)
    have hb1 : b1 < 256 := h b1 (by simp)
    have s0 : b0 / 4 < 64 := by omega
    have s1 : (b0 % 4) * 16 + b1 / 16 < 64 := by omega
    have s2 : (b1 % 16) * 4 < 64 := by omega
    have hm : b1 % 16 * 4 % 4 = 0 := by omega
    have e0 : b0 / 4 * 4 + (b0 % 4 * 16 + b1 / 16) / 16 = b0 := by omega
    have e1 : (b0 % 4 * 16 + b1 / 16) % 16 * 16 + b1 % 16 * 4 / 4 = b1 := by omega
    have e2 : (b0 % 4 * 16 + b1 / 16) % 16 * 16 + b1 % 16 = b1 := by omega
    rw [b64Encode, b64Decode, b64Val_b64Char _ s0, b64Val_b64Char _ s1]
    simp [b64Char_ne_61 _ s2, b64Val_b64Char _ s2, hm, e0, e1, e2]
  | case3 b0 =>
    have hb0 : b0 < 256 := h b0 (by simp)
    have s0 : b0 / 4 < 64 := by omega
    have s1 : (b0 % 4) * 16 < 64 := by omega
    have hm : b0 % 4 * 16 % 16 = 0 := by omega
    have e0 : b0 / 4 * 4 + b0 % 4 * 16 / 16 = b0 := by omega
    have e1 : b0 / 4 * 4 + b0 % 4 = b0 := by omega
    rw [b64Encode, b64Decode, b64Val_b64Char _ s0, b64Val_b64Char _ s1]
    simp [hm, e0, e1]
  | case4 => rfl

theorem b64Encode_lt (bs : List Nat) (h : ∀ b ∈ bs, b < 256) :
    ∀ c ∈ b64Encode bs, c < 256 := by
  induction bs using b64Encode.induct with
  | case1 b0 b1 b2 rest ih =>
    have hb0 : b0 < 256 := h b0 (by simp)
    have hb1 : b1 < 256 := h b1 (by simp)
    have hb2 : b2 < 256 := h b2 (by simp)
    intro c hc
    rw [b64Encode] at hc
    simp only [List.mem_cons] at hc
    rcases hc with rfl | rfl | rfl | rfl | hc
    · exact b64Char_lt _ (by omega)
    · exact b64Char_lt _ (by omega)
    · exact b64Char_lt _ (by omega)
    · exact b64Char_lt _ (by omega)
    · exact ih (fun b hb => h b (by simp [hb])) c hc
  | case2 b0 b1 =>
    have hb0 : b0 < 256 := h b0 (by simp)
    have hb1 : b1 < 256 := h b1 (by simp)
    intro c hc
    rw [b64Encode] at hc
    simp only [List.mem_cons, List.not_mem_nil, or_false] at hc
    rcases hc with rfl | rfl | rfl | rfl
    · exact b64Char_lt _ (by omega)
    · exact b64Char_lt _ (by omega)
    · exact b64Char_lt _ (by omega)
    · omega
  | case3 b0 =>
    have hb0 : b0 < 256 := h b0 (by simp)
    intro c hc
    rw [b64Encode] at hc
    simp only [List.mem_cons, List.not_mem_nil, or_false] at hc
    rcases hc with rfl | rfl | rfl | rfl
    · exact b64Char_lt _ (by omega)
    · exact b64Char_lt _ (by omega)
    · omega
    · omega
  | case4 => simp [b64Encode]

/-! ### AES-256-GCM (the `aes_gcm` crate), with the AES block cipher as an
arbitrary function parameter -/

/-- A block-cipher model: key bytes and a 16-byte block to a 16-byte block.
The AES-GCM properties proved below hold for every such function, in
particular for real AES-256. -/
def BlockFn : Type := List Nat → List Nat → List Nat

/-- Clamp an arbitrary function result to an exact 16-byte block. -/
def blockOf (l : List Nat) : List Nat :=
  ((l.map (· % 256)) ++ List.replicate 16 0).take 16

theorem length_blockOf (l : List Nat) : (blockOf l).length = 16 := by
  simp [blockOf]

theorem blockOf_lt (l : List Nat) : ∀ b ∈ blockOf l, b < 256 := by
  intro b hb
  have hb' := List.take_subset 16 _ hb
  rw [List.mem_append] at hb'
  rcases hb' with hb' | hb'
  · obtain ⟨x, _, rfl⟩ := List.mem_map.mp hb'
    exact Nat.mod_lt _ (by norm_num)
  · rw [List.eq_of_mem_replicate hb']
    norm_num

/-- Split a list into chunks of `n` bytes, with an explicit structural fuel
so that the definition evaluates by kernel reduction. -/
def chunksOfAux (n : Nat) : Nat → List Nat → List (List Nat)
  | 0, _ => []
  | fuel + 1, l => if l = [] then [] else l.take n :: chunksOfAux n fuel (l.drop n)

/-- Split a list into chunks of `n` bytes (the last chunk may be short). -/
def chunksOf (n : Nat) (l : List Nat) : List (List Nat) := chunksOfAux n l.length l

/-- The 32-bit big-endian counter block `nonce ∥ ctr` (SP 800-38D). -/
def ctrBlock (nonce : List Nat) (i : Nat) : List Nat := nonce ++ toBytesBE 4 i

/-- CTR-mode keystream blocks, starting at counter value `i`. -/
def ctrBlocks (E : BlockFn) (key nonce : List Nat) : Nat → Nat → List Nat
  | 0, _ => []
  | n + 1, i => blockOf (E key (ctrBlock nonce i)) ++ ctrBlocks E key nonce n (i + 1)

/-- The GCM encryption keystream for `len` bytes (counter starts at 2). -/
def keystream (E : BlockFn) (key nonce : List Nat) (len : Nat) : List Nat :=
  (ctrBlocks E key nonce ((len + 15) / 16) 2).take len

/-- XOR of two byte strings (truncated to the shorter). -/
def xorBytes (a b : List Nat) : List Nat := List.zipWith (· ^^^ ·) a b

/-- Multiplication in GF(2^128) with the GCM reduction polynomial
(SP 800-38D algorithm, blocks read as 128-bit big-endian integers). -/
def gfMul (x y : Nat) : Nat :=
  ((List.range 128).foldl
    (fun (zv : Nat × Nat) i =>
      let z := if (x >>> (127 - i)) &&& 1 = 1 then zv.1 ^^^ zv.2 else zv.1
      let v := if zv.2 &&& 1 = 1 then (zv.2 >>> 1) ^^^ (0xE1 <<< 120) else zv.2 >>> 1
      (z, v))
    (0, y)).1

/-- GHASH over the ciphertext with empty associated data: zero-pad to a
16-byte boundary, fold blocks, then absorb the length block. -/
def ghash (H : Nat) (ct : List Nat) : Nat :=
  let padded := ct ++ List.replicate ((16 - ct.length % 16) % 16) 0
  let y := (chunksOf 16 padded).foldl (fun y b => gfMul (y ^^^ fromBytesBE b) H) 0
  gfMul (y ^^^ fromBytesBE (toBytesBE 8 0 ++ toBytesBE 8 (ct.length * 8))) H

/-- The GCM authentication tag for a ciphertext. -/
def gcmTag (E : BlockFn) (key nonce ct : List Nat) : List Nat :=
  let h := fromBytesBE (blockOf (E key (List.replicate 16 0)))
  xorBytes (blockOf (E key (ctrBlock nonce 1))) (toBytesBE 16 (ghash h ct))

/-- AES-GCM encryption: CTR-encrypt, append the 16-byte tag
(`aes_gcm::Aes256Gcm::encrypt`). -/
def gcmEncrypt (E : BlockFn) (key nonce pt : List Nat) : List Nat :=
  let ct := xorBytes pt (keystream E key nonce pt.length)
  ct ++ gcmTag E key nonce ct

/-- AES-GCM decryption: split off the tag, verify it, CTR-decrypt; `none`
models the crate's opaque `aead::Error` (`aes_gcm::Aes256Gcm::decrypt`). -/
def gcmDecrypt (E : BlockFn) (key nonce input : List Nat) : Option (List Nat) :=
  if input.length < 16 then none
  else
    let ct := input.take (input.length - 16)
    let tag := input.drop (input.length - 16)
    if gcmTag E key nonce ct = tag then
      some (xorBytes ct (keystream E key nonce ct.length))
    else none

theorem length_ctrBlocks (E : BlockFn) (key nonce : List Nat) (c i : Nat) :
    (ctrBlocks E key nonce c i).length = 16 * c := by
  induction c generalizing i with
  | zero => rfl
  | succ c ih =>
    simp [ctrBlocks, length_blockOf, ih]
    ring

theorem ctrBlocks_lt (E : BlockFn) (key nonce : List Nat) (c i : Nat) :
    ∀ b ∈ ctrBlocks E key nonce c i, b < 256 := by
  induction c generalizing i with
  | zero => simp [ctrBlocks]
  | succ c ih =>
    intro b hb
    rw [ctrBlocks, List.mem_append] at hb
    rcases hb with hb | hb
    · exact blockOf_lt _ b hb
    · exact ih _ b hb

theorem length_keystream (E : BlockFn) (key nonce : List Nat) (len : Nat) :
    (keystream E key nonce len).length = len := by
  rw [keystream, List.length_take, length_ctrBlocks]
  omega

theorem keystream_lt (E : BlockFn) (key nonce : List Nat) (len : Nat) :
    ∀ b ∈ keystream E key nonce len, b < 256 := by
  intro b hb
  exact ctrBlocks_lt E key nonce _ 2 b (List.take_subset _ _ hb)

theorem length_xorBytes (a b : List Nat) : (xorBytes a b).length = min a.length b.length := by
  simp [xorBytes]

theorem xorBytes_lt (a b : List Nat) (ha : ∀ x ∈ a, x < 256) (hb : ∀ x ∈ b, x < 256) :
    ∀ x ∈ xorBytes a b, x < 256 := by
  induction a generalizing b with
  | nil => simp [xorBytes]
  | cons x a ih =>
    cases b with
    | nil => simp [xorBytes]
    | cons y b =>
      intro z hz
      rw [xorBytes, List.zipWith_cons_cons, List.mem_cons] at hz
      rcases hz with rfl | hz
      · exact Nat.xor_lt_two_pow (n := 8) (ha x (by simp)) (hb y (by simp))
      · exact ih b (fun u hu => ha u (by simp [hu])) (fun u hu => hb u (by simp [hu])) z hz

theorem xorBytes_cancel (a b : List Nat) (h : a.length ≤ b.length) :
    xorBytes (xorBytes a b) b = a := by
  induction a generalizing b with
  | nil => simp [xorBytes]
  | cons x a ih =>
    cases b with
    | nil => simp at h
    | cons y b =>
      have ih2 := ih b (by simpa using h)
      simp only [xorBytes, List.zipWith_cons_cons] at ih2 ⊢
      rw [Nat.xor_cancel_right, ih2]

theorem length_gcmTag (E : BlockFn) (key nonce ct : List Nat) :
    (gcmTag E key nonce ct).length = 16 := by
  simp [gcmTag, length_xorBytes, length_blockOf, length_toBytesBE]

theorem gcmTag_lt (E : BlockFn) (key nonce ct : List Nat) :
    ∀ b ∈ gcmTag E key nonce ct, b < 256 := by
  exact xorBytes_lt _ _ (blockOf_lt _) (toBytesBE_lt _ _)

/-- AES-GCM round trip: decrypting an encryption with the same key and
nonce recovers the plaintext, for every block cipher `E`. -/
theorem gcmDecrypt_gcmEncrypt (E : BlockFn) (key nonce pt : List Nat) :
    gcmDecrypt E key nonce (gcmEncrypt E key nonce pt) = some pt := by
  rw [gcmEncrypt, gcmDecrypt]
  have hct : (xorBytes pt (keystream E key nonce pt.length)).length = pt.length := by
    rw [length_xorBytes, length_keystream]
    omega
  have hlen : (xorBytes pt (keystream E key nonce pt.length) ++
      gcmTag E key nonce (xorBytes pt (keystream E key nonce pt.length))).length =
      pt.length + 16 := by
    rw [List.length_append, hct, length_gcmTag]
  rw [if_neg (by omega)]
  have hsub : (xorBytes pt (keystream E key nonce pt.length) ++
      gcmTag E key nonce (xorBytes pt (keystream E key nonce pt.length))).length - 16 =
      (xorBytes pt (keystream E key nonce pt.length)).length := by omega
  rw [hsub, List.take_left, List.drop_left, if_pos rfl, hct,
    xorBytes_cancel _ _ (by rw [length_keystream])]

theorem gcmEncrypt_lt (E : BlockFn) (key nonce pt : List Nat) (h : ∀ b ∈ pt, b < 256) :
    ∀ b ∈ gcmEncrypt E key nonce pt, b < 256 := by
  intro b hb
  rw [gcmEncrypt, List.mem_append] at hb
  rcases hb with hb | hb
  · exact xorBytes_lt _ _ h (keystream_lt E key nonce _) b hb
  · exact gcmTag_lt E key nonce _ b hb

/-! ### SHA-256 (the `sha2` crate, `Sha256::digest`) -/

/-- 32-bit right rotation. -/
def rotr32 (n x : Nat) : Nat := ((x >>> n) ||| (x <<< (32 - n))) % 2 ^ 32

def shaCh (x y z : Nat) : Nat := (x &&& y) ^^^ ((x ^^^ 0xFFFFFFFF) &&& z)

def shaMaj (x y z : Nat) : Nat := (x &&& y) ^^^ (x &&& z) ^^^ (y &&& z)

def bigSigma0 (x : Nat) : Nat := rotr32 2 x ^^^ rotr32 13 x ^^^ rotr32 22 x

def bigSigma1 (x : Nat) : Nat := rotr32 6 x ^^^ rotr32 11 x ^^^ rotr32 25 x

def smallSigma0 (x : Nat) : Nat := rotr32 7 x ^^^ rotr32 18 x ^^^ (x >>> 3)

def smallSigma1 (x : Nat) : Nat := rotr32 17 x ^^^ rotr32 19 x ^^^ (x >>> 10)

/-- The SHA-256 round constants. -/
def shaK : List Nat :=
  [1116352408, 1899447441, 3049323471, 3921009573, 961987163,
   1508970993, 2453635748, 2870763221, 3624381080, 310598401,
   607225278, 1426881987, 1925078388, 2162078206, 2614888103,
   3248222580, 3835390401, 4022224774, 264347078, 604807628,
   770255983, 1249150122, 1555081692, 1996064986, 2554220882,
   2821834349, 2952996808, 3210313671, 3336571891, 3584528711,
   113926993, 338241895, 666307205, 773529912, 1294757372,
   1396182291, 1695183700, 1986661051, 2177026350, 2456956037,
   2730485921, 2820302411, 3259730800, 3345764771, 3516065817,
   3600352804, 4094571909, 275423344, 430227734, 506948616,
   659060556, 883997877, 958139571, 1322822218, 1537002063,
   1747873779, 1955562222, 2024104815, 2227730452, 2361852424,
   2428436474, 2756734187, 3204031479, 3329325298]

/-- The eight 32-bit working variables of SHA-256. -/
structure Hash8 where
  a : Nat
  b : Nat
  c : Nat
  d : Nat
  e : Nat
  f : Nat
  g : Nat
  h : Nat

/-- The SHA-256 initial hash value. -/
def shaIV : Hash8 :=
  ⟨1779033703, 3144134277, 1013904242, 2773480762,
   1359893119, 2600822924, 528734635, 1541459225⟩

/-- The 64-entry message schedule of one 64-byte block. -/
def schedW (block : List Nat) : List Nat :=
  let w0 := (chunksOf 4 block).map fromBytesBE
  (List.range 48).foldl
    (fun w _ =>
      w ++ [(smallSigma1 (w.getD (w.length - 2) 0) + w.getD (w.length - 7) 0 +
             smallSigma0 (w.getD (w.length - 15) 0) + w.getD (w.length - 16) 0) % 2 ^ 32])
    w0

/-- The SHA-256 compression function for one 64-byte block. -/
def shaCompress (H : Hash8) (block : List Nat) : Hash8 :=
  let w := schedW block
  let s := (List.zip shaK w).foldl
    (fun (s : Hash8) kw =>
      let t1 := (s.h + bigSigma1 s.e + shaCh s.e s.f s.g + kw.1 + kw.2) % 2 ^ 32
      let t2 := (bigSigma0 s.a + shaMaj s.a s.b s.c) % 2 ^ 32
      ⟨(t1 + t2) % 2 ^ 32, s.a, s.b, s.c, (s.d + t1) % 2 ^ 32, s.e, s.f, s.g⟩)
    H
  ⟨(H.a + s.a) % 2 ^ 32, (H.b + s.b) % 2 ^ 32, (H.c + s.c) % 2 ^ 32, (H.d + s.d) % 2 ^ 32,
   (H.e + s.e) % 2 ^ 32, (H.f + s.f) % 2 ^ 32, (H.g + s.g) % 2 ^ 32, (H.h + s.h) % 2 ^ 32⟩

/-- SHA-256 padding: `0x80`, zeros to 56 mod 64, 64-bit bit length. -/
def shaPad (msg : List Nat) : List Nat :=
  msg.map (· % 256) ++ [0x80] ++ List.replicate ((119 - msg.length % 64) % 64) 0 ++
    toBytesBE 8 (msg.length * 8)

/-- SHA-256 of a byte string, as 32 digest bytes. -/
def sha256 (msg : List Nat) : List Nat :=
  let final := (chunksOf 64 (shaPad msg)).foldl shaCompress shaIV
  toBytesBE 4 final.a ++ toBytesBE 4 final.b ++ toBytesBE 4 final.c ++ toBytesBE 4 final.d ++
    toBytesBE 4 final.e ++ toBytesBE 4 final.f ++ toBytesBE 4 final.g ++ toBytesBE 4 final.h

theorem length_sha256 (msg : List Nat) : (sha256 msg).length = 32 := by
  simp [sha256, length_toBytesBE]

theorem sha256_lt (msg : List Nat) : ∀ b ∈ sha256 msg, b < 256 := by
  intro b hb
  rw [sha256] at hb
  simp only [List.mem_append] at hb
  rcases hb with ((((((hb | hb) | hb) | hb) | hb) | hb) | hb) | hb <;>
    exact toBytesBE_lt _ _ b hb

/-! ### `security.rs` -/

/-- `MAX_STORAGE_VALUE_LENGTH`: 8KB limit for secrets. -/
def MAX_STORAGE_VALUE_LENGTH : Nat := 8192

/-- Rust `input.contains(char 0)`. -/
def hasNullByte (s : String) : Bool := s.data.any (fun c => c.toNat == 0)

/-- `validate_user_input` from `security.rs`: length check first, then the
null-byte check.  The error is a message string, as in the source. -/
def validate_user_input (input field_name : String) (max_length : Nat) :
    Except String Unit :=
  if utf8Len input > max_length then
    .error (field_name ++ " exceeds maximum length of " ++ toString max_length ++ " bytes")
  else if hasNullByte input then
    .error (field_name ++ " contains null bytes")
  else .ok ()

/-! ### `secure_storage.rs`: data model -/

/-- `SecureStorageError` from `secure_storage.rs`. -/
inductive SecureStorageError where
  | EncryptionFailed (msg : String)
  | DecryptionFailed (msg : String)
  | InvalidFormat (msg : String)
  | IoError (msg : String)
  | SystemInfoError (msg : String)
deriving DecidableEq, Repr

/-- The `Display` rendering of a `SecureStorageError`. -/
def SecureStorageError.display : SecureStorageError → String
  | .EncryptionFailed msg => "Encryption failed: " ++ msg
  | .DecryptionFailed msg => "Decryption failed: " ++ msg
  | .InvalidFormat msg => "Invalid format: " ++ msg
  | .IoError msg => "IO error: " ++ msg
  | .SystemInfoError msg => "System info error: " ++ msg

/-- The outcome of running a Rust function that may also panic. -/
inductive RustOutcome (α : Type) where
  | ok (val : α)
  | err (e : SecureStorageError)
  | panicked
deriving DecidableEq, Repr

/-- `EncryptedData`: base64 ciphertext and nonce (as ASCII code lists)
plus a format version. -/
structure EncryptedData where
  ciphertext : List Nat
  nonce : List Nat
  version : Nat
deriving DecidableEq, Repr

/-- `SecureStorageManager`: the derived master key and storage directory. -/
structure SecureStorageManager where
  master_key : List Nat
  storage_dir : String

/-- Rust `PathBuf::join`: an absolute right operand replaces the base. -/
def pathJoin (dir name : String) : String :=
  if name.data.headD ' ' = '/' then name else dir ++ "/" ++ name

/-- `derive_master_key`: concatenate the app name, the best-effort
hostname and username (empty when unavailable), and the fixed literal
salt, then hash with SHA-256.  The machine identity is passed as explicit
arguments in the model. -/
def derive_master_key (app_name host user : String) : List Nat :=
  sha256 (utf8Bytes (app_name ++ host ++ user ++ "ryu_secure_storage_v1"))

/-- `SecureStorageManager::new`. -/
def SecureStorageManager.new (app_name app_data_dir host user : String) :
    SecureStorageManager :=
  { master_key := derive_master_key app_name host user,
    storage_dir := pathJoin app_data_dir "secure_storage" }

/-- `SecureStorageManager::encrypt` with the freshly drawn random nonce as
an explicit argument. -/
def SecureStorageManager.encrypt (m : SecureStorageManager) (E : BlockFn)
    (nonceBytes : List Nat) (data : String) : EncryptedData :=
  { ciphertext := b64Encode (gcmEncrypt E m.master_key nonceBytes (utf8Bytes data)),
    nonce := b64Encode nonceBytes,
    version := 1 }

/-- `SecureStorageManager::decrypt`.  `Nonce::from_slice` panics when the
decoded nonce is not exactly 12 bytes; that outcome is modelled as
`RustOutcome.panicked`. -/
def SecureStorageManager.decrypt (m : SecureStorageManager) (E : BlockFn)
    (encrypted_data : EncryptedData) : RustOutcome String :=
  match b64Decode encrypted_data.ciphertext with
  | none => .err (.DecryptionFailed "Invalid base64 in ciphertext")
  | some ciphertext =>
    match b64Decode encrypted_data.nonce with
    | none => .err (.DecryptionFailed "Invalid base64 in nonce")
    | some nonce_bytes =>
      if nonce_bytes.length = 12 then
        match gcmDecrypt E m.master_key nonce_bytes ciphertext with
        | none => .err (.DecryptionFailed "Decryption failed")
        | some plaintext =>
          match utf8DecodeCPs plaintext with
          | none => .err (.DecryptionFailed "Invalid UTF-8 in decrypted data")
          | some cps => .ok (String.mk (cps.map Char.ofNat))
      else .panicked

/-! ### `secure_storage.rs`: file operations over an explicit store -/

/-- What a record file on disk can hold: a well-formed serialized
`EncryptedData` (serde round-trips exactly), or malformed text. -/
inductive FileContent where
  | record (r : EncryptedData)
  | malformed (s : String)
deriving DecidableEq

/-- The storage directory as a map from file paths to contents. -/
def Store : Type := String → Option FileContent

/-- The empty storage directory. -/
def emptyStore : Store := fun _ => none

/-- The record file path for a key: `storage_dir` joined with `<key>.enc`. -/
def recordPath (m : SecureStorageManager) (key : String) : String :=
  pathJoin m.storage_dir (key ++ ".enc")

/-- The manager's key check, `key.is_empty() || key.len() > 255`. -/
def storageKeyInvalid (key : String) : Bool :=
  decide (key = "") || decide (utf8Len key > 255)

/-- The error every manager operation returns for an invalid key. -/
def invalidKeyError : SecureStorageError := .InvalidFormat "Invalid storage key"

/-- `SecureStorageManager::store`: validate the key, encrypt, serialize,
write (overwriting) the record file. -/
def SecureStorageManager.store (m : SecureStorageManager) (E : BlockFn)
    (nonce : List Nat) (st : Store) (key data : String) :
    Except SecureStorageError Unit × Store :=
  if storageKeyInvalid key then (.error invalidKeyError, st)
  else
    let encrypted := m.encrypt E nonce data
    (.ok (), fun p => if p = recordPath m key then some (.record encrypted) else st p)

/-- `SecureStorageManager::retrieve`: validate the key; `none` when no
file exists; `InvalidFormat` on malformed content; otherwise decrypt. -/
def SecureStorageManager.retrieve (m : SecureStorageManager) (E : BlockFn)
    (st : Store) (key : String) : RustOutcome (Option String) :=
  if storageKeyInvalid key then .err invalidKeyError
  else
    match st (recordPath m key) with
    | none => .ok none
    | some (.malformed _) => .err (.InvalidFormat "JSON deserialization failed")
    | some (.record r) =>
      match m.decrypt E r with
      | .ok s => .ok (some s)
      | .err e => .err e
      | .panicked => .panicked

/-- `SecureStorageManager::remove`: validate the key, delete the file if
present, return whether it existed. -/
def SecureStorageManager.remove (m : SecureStorageManager) (st : Store)
    (key : String) : Except SecureStorageError Bool × Store :=
  if storageKeyInvalid key then (.error invalidKeyError, st)
  else if (st (recordPath m key)).isSome then
    (.ok true, fun p => if p = recordPath m key then none else st p)
  else (.ok false, st)

/-- `SecureStorageManager::exists`: validate the key, then a pure
existence check. -/
def SecureStorageManager.existsOp (m : SecureStorageManager) (st : Store)
    (key : String) : Except SecureStorageError Bool :=
  if storageKeyInvalid key then .error invalidKeyError
  else .ok (st (recordPath m key)).isSome

/-! ### `secure_storage.rs`: global instance and command layer -/

/-- `init_secure_storage`: construct a manager, then `OnceCell::set`,
which fails when a manager is already installed and leaves it unchanged. -/
def init_secure_storage (installed : Option SecureStorageManager)
    (app_name app_data_dir host user : String) :
    Except SecureStorageError Unit × Option SecureStorageManager :=
  let manager := SecureStorageManager.new app_name app_data_dir host user
  match installed with
  | none => (.ok (), some manager)
  | some old => (.error (.SystemInfoError "Secure storage already initialized"), some old)

/-- The loop body of `secure_storage_store_batch`: validate each key and
value, then store; fail fast on the first error.  `ns i` is the random
nonce drawn for the `i`-th store. -/
def storeBatchGo (m : SecureStorageManager) (E : BlockFn) (ns : Nat → List Nat) :
    List (String × String) → Store → Nat → Except String Unit × Store
  | [], st, _ => (.ok (), st)
  | (key, value) :: rest, st, i =>
    match validate_user_input key "storage key" 255 with
    | .error e => (.error ("Invalid storage key: " ++ e), st)
    | .ok _ =>
      match validate_user_input value "storage value" MAX_STORAGE_VALUE_LENGTH with
      | .error e => (.error ("Invalid storage value: " ++ e), st)
      | .ok _ =>
        match m.store E (ns i) st key value with
        | (.ok _, st1) => storeBatchGo m E ns rest st1 (i + 1)
        | (.error e, st1) => (.error ("Failed to store key: " ++ e.display), st1)

/-- The `secure_storage_store_batch` command: reject batches over 100
items, then run the sequential store loop. -/
def secure_storage_store_batch (m : SecureStorageManager) (E : BlockFn)
    (ns : Nat → List Nat) (items : List (String × String)) (st : Store) :
    Except String Unit × Store :=
  if items.length > 100 then (.error "Batch too large (max 100 items)", st)
  else storeBatchGo m E ns items st 0

/-- The store state after sequentially committing a list of items,
starting at nonce index `i`. -/
def commitAll (m : SecureStorageManager) (E : BlockFn) (ns : Nat → List Nat) :
    List (String × String) → Store → Nat → Store
  | [], st, _ => st
  | (k, v) :: rest, st, i => commitAll m E ns rest (m.store E (ns i) st k v).2 (i + 1)

/-- An item the batch loop accepts: key and value pass
`validate_user_input` and the key passes the manager's check. -/
def goodItem (it : String × String) : Prop :=
  utf8Len it.1 ≤ 255 ∧ hasNullByte it.1 = false ∧ it.1 ≠ "" ∧
    utf8Len it.2 ≤ 8192 ∧ hasNullByte it.2 = false

/-! ### Shared helper lemmas about the operations -/

/-- `validate_user_input` succeeds on input within the limit and free of
null bytes. -/
theorem validate_user_input_ok (input field : String) (maxLen : Nat)
    (h1 : utf8Len input ≤ maxLen) (h2 : hasNullByte input = false) :
    validate_user_input input field maxLen = .ok () := by
  rw [validate_user_input, if_neg (by omega), if_neg (by simp [h2])]

/-- `validate_user_input` fails with the length message on oversized input. -/
theorem validate_user_input_too_long (input field : String) (maxLen : Nat)
    (h : utf8Len input > maxLen) :
    validate_user_input input field maxLen =
      .error (field ++ " exceeds maximum length of " ++ toString maxLen ++ " bytes") := by
  rw [validate_user_input, if_pos h]

/-- `validate_user_input` fails with the null-byte message on null-byte
input within the length limit. -/
theorem validate_user_input_null (input field : String) (maxLen : Nat)
    (h1 : utf8Len input ≤ maxLen) (h2 : hasNullByte input = true) :
    validate_user_input input field maxLen = .error (field ++ " contains null bytes") := by
  rw [validate_user_input, if_neg (by omega), if_pos h2]

/-- `store` on a valid key writes the encrypted record file. -/
theorem store_ok (m : SecureStorageManager) (E : BlockFn) (nonce : List Nat)
    (st : Store) (k v : String) (hk : storageKeyInvalid k = false) :
    m.store E nonce st k v =
      (.ok (), fun p => if p = recordPath m k then some (.record (m.encrypt E nonce v))
        else st p) := by
  rw [SecureStorageManager.store, if_neg (by simp [hk])]

/-- `store` on an invalid key fails and leaves the store unchanged. -/
theorem store_invalid (m : SecureStorageManager) (E : BlockFn) (nonce : List Nat)
    (st : Store) (k v : String) (hk : storageKeyInvalid k = true) :
    m.store E nonce st k v = (.error invalidKeyError, st) := by
  rw [SecureStorageManager.store, if_pos hk]

/-- A non-empty key of at most 255 bytes passes the manager's key check. -/
theorem storageKeyInvalid_false (k : String) (h1 : k ≠ "") (h2 : utf8Len k ≤ 255) :
    storageKeyInvalid k = false := by
  simp [storageKeyInvalid, h1]
  omega

/-- Decrypting an encryption under the same manager recovers the
plaintext, for every 12-byte nonce and block cipher. -/
theorem decrypt_encrypt (m : SecureStorageManager) (E : BlockFn) (nonce : List Nat)
    (s : String) (h1 : nonce.length = 12) (h2 : ∀ b ∈ nonce, b < 256) :
    m.decrypt E (m.encrypt E nonce s) = .ok s := by
  have hct := b64Decode_b64Encode (gcmEncrypt E m.master_key nonce (utf8Bytes s))
    (gcmEncrypt_lt _ _ _ _ (utf8Bytes_lt s))
  have hn := b64Decode_b64Encode nonce h2
  have hgcm := gcmDecrypt_gcmEncrypt E m.master_key nonce (utf8Bytes s)
  have hutf : utf8DecodeCPs (utf8Bytes s) = some (s.data.map Char.toNat) := by
    apply utf8DecodeCPs_encodeCPs
    intro n hn2
    obtain ⟨c, _, rfl⟩ := List.mem_map.mp hn2
    exact char_validCP c
  simp only [SecureStorageManager.decrypt, SecureStorageManager.encrypt, hct, hn, hgcm,
    hutf, h1, if_pos]
  simp [List.map_map, Function.comp_def, Char.ofNat_toNat]

/-! ### Concrete instances used by the witnesses -/

/-- A concrete block-cipher instance for witnesses: the identity on the
block, ignoring the key. -/
def E0 : BlockFn := fun _ block => block

/-- A concrete manager built by `SecureStorageManager.new`. -/
def mgr0 : SecureStorageManager := SecureStorageManager.new "app" "/data" "host" "user"

/-- A concrete 12-byte nonce. -/
def nonce0 : List Nat := List.replicate 12 0

/-- A concrete nonce supply for batch witnesses. -/
def ns0 : Nat → List Nat := fun _ => nonce0

/-- A record whose nonce field decodes to a single byte: base64 `AA==`. -/
def badNonceRecord : EncryptedData :=
  { ciphertext := b64Encode [], nonce := b64Encode [0], version := 1 }

/-! ### The claims -/

/-- C1: for every valid UTF-8 string `s` of byte length at most 8192,
decrypting the encryption of `s` under the same manager returns exactly
`s`, for every value of the randomly drawn 12-byte nonce (and every block
cipher `E`). -/
theorem C1_encrypt_decrypt_roundtrip (m : SecureStorageManager) (E : BlockFn)
    (nonce : List Nat) (s : String) (h1 : nonce.length = 12)
    (h2 : ∀ b ∈ nonce, b < 256) (h3 : utf8Len s ≤ 8192) :
    m.decrypt E (m.encrypt E nonce s) = .ok s :=
  decrypt_encrypt m E nonce s h1 h2

theorem C1_witness :
    (nonce0.length = 12 ∧ (∀ b ∈ nonce0, b < 256) ∧ utf8Len "hi" ≤ 8192) ∧
    mgr0.decrypt E0 (mgr0.encrypt E0 nonce0 "hi") = .ok "hi" :=
  ⟨⟨by decide, by decide, by decide⟩,
   C1_encrypt_decrypt_roundtrip mgr0 E0 nonce0 "hi" (by decide) (by decide) (by decide)⟩

/-- C2: on a record whose nonce field decodes to a byte string that is not
96 bits long, `decrypt` does not return a result at all: `Nonce::from_slice`
panics, for every manager and block cipher.  (The claim says such records
fail with an error; the code crashes instead.) -/
theorem C2_decrypt_panics_on_short_nonce (m : SecureStorageManager) (E : BlockFn) :
    m.decrypt E badNonceRecord = .panicked := rfl

/-- C3: store, retrieve, remove and exists all fail with the invalid-key
error, leaving the store unchanged, whenever the key is empty or longer
than 255 bytes; every non-empty key of at most 255 bytes passes the key
check. -/
theorem C3_key_validation (m : SecureStorageManager) (E : BlockFn) (nonce : List Nat)
    (st : Store) (k v : String) :
    ((k = "" ∨ utf8Len k > 255) →
      m.store E nonce st k v = (.error invalidKeyError, st) ∧
      m.retrieve E st k = .err invalidKeyError ∧
      m.remove st k = (.error invalidKeyError, st) ∧
      m.existsOp st k = .error invalidKeyError) ∧
    (k ≠ "" → utf8Len k ≤ 255 → storageKeyInvalid k = false) := by
  constructor
  · intro hk
    have hb : storageKeyInvalid k = true := by
      rcases hk with hk | hk
      · simp [storageKeyInvalid, hk]
      · simp [storageKeyInvalid]
        omega
    refine ⟨store_invalid m E nonce st k v hb, ?_, ?_, ?_⟩
    · rw [SecureStorageManager.retrieve, if_pos hb]
    · rw [SecureStorageManager.remove, if_pos hb]
    · rw [SecureStorageManager.existsOp, if_pos hb]
  · intro h1 h2
    exact storageKeyInvalid_false k h1 h2

theorem C3_witness :
    ("" = "" ∨ utf8Len "" > 255) ∧
    mgr0.store E0 nonce0 emptyStore "" "v" = (.error invalidKeyError, emptyStore) ∧
    mgr0.retrieve E0 emptyStore "" = .err invalidKeyError ∧
    mgr0.remove emptyStore "" = (.error invalidKeyError, emptyStore) ∧
    mgr0.existsOp emptyStore "" = .error invalidKeyError :=
  ⟨Or.inl rfl, (C3_key_validation mgr0 E0 nonce0 emptyStore "" "v").1 (Or.inl rfl)⟩

/-- A string of `n` copies of an ASCII character has byte length `n`. -/
theorem utf8Len_replicate_char (n : Nat) (c : Char) (h : c.toNat < 0x80) :
    utf8Len (String.mk (List.replicate n c)) = n := by
  show (utf8EncodeCPs ((List.replicate n c).map Char.toNat)).length = n
  rw [List.map_replicate]
  exact utf8Len_replicate n c.toNat h

/-- A string of copies of a non-null character has no null byte. -/
theorem hasNullByte_replicate_char (n : Nat) (c : Char) (h : c.toNat ≠ 0) :
    hasNullByte (String.mk (List.replicate n c)) = false := by
  rw [hasNullByte]
  rw [List.any_eq_false]
  intro x hx
  rw [List.eq_of_mem_replicate hx]
  simpa using h

/-- C4: `validate_user_input` fails with the too-long error when the byte
length exceeds the maximum; fails with the null-byte error on null-byte
input (checked after the length test); succeeds exactly on input that is
within the limit and null-free; null-byte input always fails; and the
255/256 and 8192/8193 byte boundaries behave as specified. -/
theorem C4_validate_user_input (input field : String) (maxLen : Nat) :
    (utf8Len input > maxLen → validate_user_input input field maxLen =
      .error (field ++ " exceeds maximum length of " ++ toString maxLen ++ " bytes")) ∧
    (utf8Len input ≤ maxLen → hasNullByte input = true →
      validate_user_input input field maxLen =
        .error (field ++ " contains null bytes")) ∧
    (validate_user_input input field maxLen = .ok () ↔
      utf8Len input ≤ maxLen ∧ hasNullByte input = false) ∧
    (hasNullByte input = true → ∃ e, validate_user_input input field maxLen = .error e) ∧
    validate_user_input (String.mk (List.replicate 255 'a')) "storage key" 255 = .ok () ∧
    validate_user_input (String.mk (List.replicate 256 'a')) "storage key" 255 =
      .error "storage key exceeds maximum length of 255 bytes" ∧
    validate_user_input (String.mk (List.replicate 8192 'a')) "storage value" 8192 = .ok () ∧
    validate_user_input (String.mk (List.replicate 8193 'a')) "storage value" 8192 =
      .error "storage value exceeds maximum length of 8192 bytes" := by
  refine ⟨validate_user_input_too_long input field maxLen,
    validate_user_input_null input field maxLen, ?_, ?_, ?_, ?_, ?_, ?_⟩
  · constructor
    · intro hok
      by_cases h1 : utf8Len input > maxLen
      · rw [validate_user_input_too_long input field maxLen h1] at hok
        exact absurd hok (by simp)
      · by_cases h2 : hasNullByte input = true
        · rw [validate_user_input_null input field maxLen (by omega) h2] at hok
          exact absurd hok (by simp)
        · exact ⟨by omega, by simpa using h2⟩
    · rintro ⟨h1, h2⟩
      exact validate_user_input_ok input field maxLen h1 h2
  · intro hnull
    by_cases h1 : utf8Len input > maxLen
    · exact ⟨_, validate_user_input_too_long input field maxLen h1⟩
    · exact ⟨_, validate_user_input_null input field maxLen (by omega) hnull⟩
  · exact validate_user_input_ok _ _ _
      (by rw [utf8Len_replicate_char 255 'a' (by decide)])
      (hasNullByte_replicate_char 255 'a' (by decide))
  · exact validate_user_input_too_long _ _ _
      (by rw [utf8Len_replicate_char 256 'a' (by decide)]; omega)
  · exact validate_user_input_ok _ _ _
      (by rw [utf8Len_replicate_char 8192 'a' (by decide)])
      (hasNullByte_replicate_char 8192 'a' (by decide))
  · exact validate_user_input_too_long _ _ _
      (by rw [utf8Len_replicate_char 8193 'a' (by decide)]; omega)

theorem C4_witness :
    utf8Len "ab" > 1 ∧
    validate_user_input "ab" "f" 1 = .error "f exceeds maximum length of 1 bytes" :=
  ⟨by decide, (C4_validate_user_input "ab" "f" 1).1 (by decide)⟩

/-- C5: `derive_master_key` is the SHA-256 hash of the concatenation of the
app name, hostname, username and the fixed literal salt, in that order; it
produces exactly 256 bits (32 bytes); and two managers constructed with the
same app name and machine identity carry identical master keys. -/
theorem C5_derive_master_key (app host user : String) :
    derive_master_key app host user =
      sha256 (utf8Bytes (app ++ host ++ user ++ "ryu_secure_storage_v1")) ∧
    (derive_master_key app host user).length = 32 ∧
    (∀ dir1 dir2 : String,
      (SecureStorageManager.new app dir1 host user).master_key =
      (SecureStorageManager.new app dir2 host user).master_key) :=
  ⟨rfl, length_sha256 _, fun _ _ => rfl⟩

/-- C6: for a valid key, retrieve returns `none` (not an error) when no
file exists; fails with `InvalidFormat` on structurally malformed file
content; propagates decryption failures; and after a successful store of
`v` under the key, retrieve returns `some v`. -/
theorem C6_retrieve (m : SecureStorageManager) (E : BlockFn) (st : Store) (k : String)
    (hk : storageKeyInvalid k = false) :
    (st (recordPath m k) = none → m.retrieve E st k = .ok none) ∧
    (∀ txt, st (recordPath m k) = some (.malformed txt) →
      m.retrieve E st k = .err (.InvalidFormat "JSON deserialization failed")) ∧
    (∀ r e, st (recordPath m k) = some (.record r) → m.decrypt E r = .err e →
      m.retrieve E st k = .err e) ∧
    (∀ v nonce, nonce.length = 12 → (∀ b ∈ nonce, b < 256) →
      m.retrieve E (m.store E nonce st k v).2 k = .ok (some v)) := by
  have hk2 : ¬ (storageKeyInvalid k = true) := by simp [hk]
  refine ⟨?_, ?_, ?_, ?_⟩
  · intro h
    rw [SecureStorageManager.retrieve, if_neg hk2, h]
  · intro txt h
    rw [SecureStorageManager.retrieve, if_neg hk2, h]
  · intro r e h hd
    rw [SecureStorageManager.retrieve, if_neg hk2, h]
    simp only []
    rw [hd]
  · intro v nonce h1 h2
    rw [store_ok m E nonce st k v hk]
    rw [SecureStorageManager.retrieve, if_neg hk2]
    simp [decrypt_encrypt m E nonce v h1 h2]

theorem C6_witness :
    storageKeyInvalid "token" = false ∧
    mgr0.retrieve E0 (mgr0.store E0 nonce0 emptyStore "token" "secret123").2 "token" =
      .ok (some "secret123") :=
  ⟨by decide,
   (C6_retrieve mgr0 E0 emptyStore "token" (by decide)).2.2.2 "secret123" nonce0
     (by decide) (by decide)⟩

/-- C7: for a valid key, remove deletes the record file and returns `true`
exactly when it exists, returns `false` (not an error) when it does not,
and after a successful store, removing twice returns `true` then `false`. -/
theorem C7_remove (m : SecureStorageManager) (E : BlockFn) (nonce : List Nat)
    (st : Store) (k v : String) (hk : storageKeyInvalid k = false) :
    ((st (recordPath m k)).isSome = true →
      m.remove st k = (.ok true, fun p => if p = recordPath m k then none else st p)) ∧
    ((st (recordPath m k)).isSome = false → m.remove st k = (.ok false, st)) ∧
    ((m.remove (m.store E nonce st k v).2 k).1 = .ok true ∧
     (m.remove (m.store E nonce st k v).2 k).2 (recordPath m k) = none ∧
     m.remove (m.remove (m.store E nonce st k v).2 k).2 k =
       (.ok false, (m.remove (m.store E nonce st k v).2 k).2)) := by
  have hk2 : ¬ (storageKeyInvalid k = true) := by simp [hk]
  refine ⟨?_, ?_, ?_⟩
  · intro h
    rw [SecureStorageManager.remove, if_neg hk2, if_pos h]
  · intro h
    rw [SecureStorageManager.remove, if_neg hk2, if_neg (by simp [h])]
  · rw [store_ok m E nonce st k v hk]
    have hex : ((fun p => if p = recordPath m k then some (.record (m.encrypt E nonce v))
        else st p) (recordPath m k)).isSome = true := by simp
    rw [SecureStorageManager.remove, if_neg hk2, if_pos hex]
    refine ⟨rfl, by simp, ?_⟩
    rw [SecureStorageManager.remove, if_neg hk2, if_neg (by simp)]

theorem C7_witness :
    storageKeyInvalid "k" = false ∧
    ((mgr0.remove (mgr0.store E0 nonce0 emptyStore "k" "v").2 "k").1 = .ok true ∧
     (mgr0.remove (mgr0.store E0 nonce0 emptyStore "k" "v").2 "k").2
       (recordPath mgr0 "k") = none ∧
     mgr0.remove (mgr0.remove (mgr0.store E0 nonce0 emptyStore "k" "v").2 "k").2 "k" =
       (.ok false, (mgr0.remove (mgr0.store E0 nonce0 emptyStore "k" "v").2 "k").2)) :=
  ⟨by decide, (C7_remove mgr0 E0 nonce0 emptyStore "k" "v" (by decide)).2.2⟩

/-- The batch loop on a good item stores it and continues. -/
theorem storeBatchGo_cons_good (m : SecureStorageManager) (E : BlockFn)
    (ns : Nat → List Nat) (k v : String) (rest : List (String × String))
    (st : Store) (i : Nat) (hg : goodItem (k, v)) :
    storeBatchGo m E ns ((k, v) :: rest) st i =
      storeBatchGo m E ns rest (m.store E (ns i) st k v).2 (i + 1) := by
  obtain ⟨h1, h2, h3, h4, h5⟩ := hg
  have hk : storageKeyInvalid k = false := storageKeyInvalid_false k h3 h1
  rw [storeBatchGo, validate_user_input_ok _ _ _ h1 h2]
  simp only []
  rw [show MAX_STORAGE_VALUE_LENGTH = 8192 from rfl, validate_user_input_ok _ _ _ h4 h5]
  simp only []
  rw [store_ok m E (ns i) st k v hk]

/-- The batch loop steps through a prefix of good items, committing each. -/
theorem storeBatchGo_append_good (m : SecureStorageManager) (E : BlockFn)
    (ns : Nat → List Nat) (pre rest : List (String × String)) (st : Store) (i : Nat)
    (hpre : ∀ it ∈ pre, goodItem it) :
    storeBatchGo m E ns (pre ++ rest) st i =
      storeBatchGo m E ns rest (commitAll m E ns pre st i) (i + pre.length) := by
  induction pre generalizing st i with
  | nil => simp [commitAll]
  | cons it pre ih =>
    obtain ⟨k, v⟩ := it
    rw [List.cons_append, storeBatchGo_cons_good m E ns k v _ st i (hpre _ (by simp)),
      ih _ _ (fun x hx => hpre x (by simp [hx])), commitAll]
    have : i + 1 + pre.length = i + ((k, v) :: pre).length := by simp; omega
    rw [this]

/-- The batch loop fails on a bad item, leaving the store unchanged. -/
theorem storeBatchGo_bad (m : SecureStorageManager) (E : BlockFn)
    (ns : Nat → List Nat) (k v : String) (rest : List (String × String))
    (st : Store) (i : Nat) (hb : ¬ goodItem (k, v)) :
    (∃ e, (storeBatchGo m E ns ((k, v) :: rest) st i).1 = .error e) ∧
      (storeBatchGo m E ns ((k, v) :: rest) st i).2 = st := by
  by_cases c1 : utf8Len k > 255
  · rw [storeBatchGo, validate_user_input_too_long _ _ _ c1]
    exact ⟨⟨_, rfl⟩, rfl⟩
  · by_cases c2 : hasNullByte k = true
    · rw [storeBatchGo, validate_user_input_null _ _ _ (by omega) c2]
      exact ⟨⟨_, rfl⟩, rfl⟩
    · have hvk := validate_user_input_ok k "storage key" 255 (by omega) (by simpa using c2)
      by_cases c3 : utf8Len v > 8192
      · rw [storeBatchGo, hvk]
        simp only []
        rw [show MAX_STORAGE_VALUE_LENGTH = 8192 from rfl,
          validate_user_input_too_long _ _ _ c3]
        exact ⟨⟨_, rfl⟩, rfl⟩
      · by_cases c4 : hasNullByte v = true
        · rw [storeBatchGo, hvk]
          simp only []
          rw [show MAX_STORAGE_VALUE_LENGTH = 8192 from rfl,
            validate_user_input_null _ _ _ (by omega) c4]
          exact ⟨⟨_, rfl⟩, rfl⟩
        · have hke : k = "" := by
            by_contra hne
            exact hb ⟨show utf8Len k ≤ 255 by omega, by simpa using c2, hne,
              show utf8Len v ≤ 8192 by omega, by simpa using c4⟩
          subst hke
          have hinv : storageKeyInvalid "" = true := by decide
          rw [storeBatchGo, hvk]
          simp only []
          rw [show MAX_STORAGE_VALUE_LENGTH = 8192 from rfl,
            validate_user_input_ok _ _ _ (by omega) (by simpa using c4)]
          simp only []
          rw [store_invalid m E (ns i) st "" v hinv]
          exact ⟨⟨_, rfl⟩, rfl⟩

/-- C8: a batch of more than 100 items is rejected with the batch-too-large
error, leaving the store unchanged; a batch of at most 100 items is the
sequential composition of single stores, stopping at the first invalid item
with everything before it committed and nothing after it stored; all-valid
batches commit everything; and the `[("a","x"), ("", "y")]` batch fails
overall with `"a"` already committed. -/
theorem C8_store_batch (m : SecureStorageManager) (E : BlockFn) (ns : Nat → List Nat)
    (st : Store) (items : List (String × String)) :
    (items.length > 100 → secure_storage_store_batch m E ns items st =
      (.error "Batch too large (max 100 items)", st)) ∧
    (∀ pre k v post, items = pre ++ (k, v) :: post → items.length ≤ 100 →
      (∀ it ∈ pre, goodItem it) → ¬ goodItem (k, v) →
      (∃ e, (secure_storage_store_batch m E ns items st).1 = .error e) ∧
      (secure_storage_store_batch m E ns items st).2 = commitAll m E ns pre st 0) ∧
    ((∀ it ∈ items, goodItem it) → items.length ≤ 100 →
      secure_storage_store_batch m E ns items st = (.ok (), commitAll m E ns items st 0)) ∧
    ((∃ e, (secure_storage_store_batch m E ns [("a", "x"), ("", "y")] st).1 = .error e) ∧
     (secure_storage_store_batch m E ns [("a", "x"), ("", "y")] st).2 =
       (m.store E (ns 0) st "a" "x").2) := by
  refine ⟨?_, ?_, ?_, ?_⟩
  · intro h
    rw [secure_storage_store_batch, if_pos h]
  · intro pre k v post hitems hlen hpre hbad
    subst hitems
    rw [secure_storage_store_batch, if_neg (by omega),
      storeBatchGo_append_good m E ns pre _ st 0 hpre]
    exact storeBatchGo_bad m E ns k v post _ _ hbad
  · intro hgood hlen
    rw [secure_storage_store_batch, if_neg (by omega)]
    have := storeBatchGo_append_good m E ns items [] st 0 hgood
    rw [List.append_nil] at this
    rw [this, storeBatchGo]
  · have hg : goodItem ("a", "x") := by
      refine ⟨by decide, by decide, by decide, by decide, by decide⟩
    have hb : ¬ goodItem ("", "y") := by
      intro ⟨_, _, hne, _, _⟩
      exact hne rfl
    have h2 := storeBatchGo_bad m E ns "" "y" [] ((m.store E (ns 0) st "a" "x").2) 1 hb
    rw [secure_storage_store_batch, if_neg (by simp),
      show ([("a", "x"), ("", "y")] : List (String × String)) =
        ("a", "x") :: ("", "y") :: [] from rfl,
      storeBatchGo_cons_good m E ns "a" "x" _ st 0 hg]
    exact h2

theorem C8_witness :
    secure_storage_store_batch mgr0 E0 ns0 (List.replicate 101 ("k", "v")) emptyStore =
      (.error "Batch too large (max 100 items)", emptyStore) :=
  (C8_store_batch mgr0 E0 ns0 emptyStore (List.replicate 101 ("k", "v"))).1 (by simp)

/-- C9: initialization happens at most once: with no manager installed,
`init_secure_storage` succeeds and installs the newly constructed manager;
with a manager already installed, every further call fails with the
already-initialized error and leaves the original manager (and its master
key) unchanged. -/
theorem C9_init_once (app dir host user : String) :
    (init_secure_storage none app dir host user =
      (.ok (), some (SecureStorageManager.new app dir host user))) ∧
    (∀ old app2 dir2 host2 user2,
      init_secure_storage (some old) app2 dir2 host2 user2 =
        (.error (.SystemInfoError "Secure storage already initialized"), some old)) :=
  ⟨rfl, fun _ _ _ _ _ => rfl⟩

/-- C10: the key `"../escape"` contains a path separator and the `..`
segment, yet passes `validate_user_input` and the manager's key check, and
store uses it verbatim to form the record file path
`<storage_dir>/../escape.enc` — the key namespace is not confined to the
storage directory. -/
theorem C10_path_traversal_key (m : SecureStorageManager) (E : BlockFn)
    (nonce : List Nat) (st : Store) (v : String) :
    validate_user_input "../escape" "storage key" 255 = .ok () ∧
    storageKeyInvalid "../escape" = false ∧
    (m.store E nonce st "../escape" v).1 = .ok () ∧
    recordPath m "../escape" = m.storage_dir ++ "/" ++ "../escape.enc" ∧
    (m.store E nonce st "../escape" v).2 (m.storage_dir ++ "/" ++ "../escape.enc") =
      some (.record (m.encrypt E nonce v)) := by
  have hpath : recordPath m "../escape" = m.storage_dir ++ "/" ++ "../escape.enc" := by
    rw [recordPath, pathJoin, if_neg (by decide),
      show ("../escape" ++ ".enc" : String) = "../escape.enc" from by decide]
  refine ⟨validate_user_input_ok _ _ _ (by decide) (by decide), by decide, ?_, hpath, ?_⟩
  · rw [store_ok m E nonce st _ v (by decide)]
  · rw [store_ok m E nonce st _ v (by decide)]
    simp only [← hpath]
    simp

/-! ### Sanity checks of the primitive models on known answers -/

/-- The UTF-8 model round-trips a concrete multi-byte string. -/
theorem utf8_model_sanity :
    utf8DecodeCPs (utf8Bytes "héllo✓") = some ("héllo✓".data.map Char.toNat) := by decide

/-- The base64 model decodes the canonical padded form `AA==` to `[0]`. -/
theorem b64_model_sanity : b64Decode [65, 65, 61, 61] = some [0] := by decide

set_option maxRecDepth 100000 in
/-- The SHA-256 model matches the official `"abc"` test vector. -/
theorem sha256_model_sanity : sha256 [97, 98, 99] =
    [186, 120, 22, 191, 143, 1, 207, 234, 65, 65, 64, 222, 93, 174, 34, 35,
     176, 3, 97, 163, 150, 23, 122, 156, 180, 16, 255, 97, 242, 0, 21, 173] := by decide

end YtPub
